import Mathlib

/-!
# Verification of the Recipe backend's association and filtering logic

Shallow embedding of `app/recipe/serializers.py` and `app/recipe/views.py`
(a Django REST Framework CRUD backend for recipes, tags and ingredients).
Rows of the relational store are Lean structures; Django querysets over a
table are lists of rows, with `filter` as list filtering, `order_by` as a
sort, `distinct` as deduplication; the ORM's `get_or_create` is modelled
by its documented semantics (`get` on the kwargs: zero matches create a
row, one match returns it, several raise `MultipleObjectsReturned`).
Python exceptions are an explicit error type threaded through `Except`.
-/

namespace RecipeApp

/-- Modelled from the spec: `core/models.py` is not in the provided sources.
A `Tag` or `Ingredient` row — spec §3: "name (string), owning user", with
a surrogate integer primary key assigned at insertion. -/
structure Attr where
  id : Nat
  user : Nat
  name : String
deriving DecidableEq, Repr

/-- Modelled from the spec: a `Recipe` row — spec §3: title, time_minutes,
price (decimal), link, description, owning user; many-to-many association
sets to tags and to ingredients, held here as lists of attribute ids
(the list order is the insertion order of the relation rows). -/
structure Recipe where
  id : Nat
  user : Nat
  title : String
  timeMinutes : Nat
  price : Rat
  link : String
  description : String
  tagIds : List Nat
  ingredientIds : List Nat
deriving DecidableEq, Repr

/-- One attribute table (tags or ingredients) together with the
auto-increment counter for its primary key. -/
structure AttrStore where
  rows : List Attr
  nextId : Nat
deriving DecidableEq, Repr

/-- The whole persistent store. -/
structure Db where
  tags : AttrStore
  ingredients : AttrStore
  recipes : List Recipe
  nextRecipeId : Nat
deriving DecidableEq, Repr

/-- The failure outcomes that the embedded code can surface: Python/ORM
exceptions (`ValueError` from `int()`, `TypeError` from `**`-unpacking a
non-mapping, `MultipleObjectsReturned` from `get`), DRF's
`ValidationError`, `Http404`, and `MethodNotAllowed` (a verb the viewset
binds no handler for). -/
inductive PyError where
  | valueError
  | typeError
  | multipleObjectsReturned
  | validationError
  | notFound
  | methodNotAllowed
deriving DecidableEq, Repr

/-- HTTP status assigned by the framework's default exception handling:
DRF turns `ValidationError` into 400, `Http404` into 404 and
`MethodNotAllowed` into 405; any other uncaught Python exception
propagates and surfaces as a 500 server error. -/
def statusOf : PyError → Nat
  | .validationError => 400
  | .notFound => 404
  | .methodNotAllowed => 405
  | .valueError => 500
  | .typeError => 500
  | .multipleObjectsReturned => 500

/-- One entry of a submitted `tags`/`ingredients` list, as the serializer
code inspects it: a dict that may or may not carry a `name` key, or a
non-dict value (`isinstance(tag, dict)` fails). -/
inductive Entry where
  | dict (name? : Option String)
  | nonDict
deriving DecidableEq, Repr

/-- `recipe.tags.add(obj)` / `recipe.ingredients.add(obj)`: adding an
already-associated row to a many-to-many relation is a no-op. -/
def m2mAdd (assoc : List Nat) (i : Nat) : List Nat :=
  if i ∈ assoc then assoc else assoc ++ [i]

/-- Whether a row matches the kwargs `user=u` plus, when present, `name=n`
(the `**tag` unpacking supplies the `name` key when the dict has one). -/
def matchesKwargs (u : Nat) (name? : Option String) (a : Attr) : Bool :=
  a.user == u && (match name? with
    | some n => a.name == n
    | none => true)

/-- `Model.objects.get_or_create(user=u, **fields)`: `get` with the kwargs —
no match creates a row (a missing `name` kwarg leaves the CharField at its
empty-string default), exactly one match returns it, several matches raise
`MultipleObjectsReturned`. -/
def getOrCreate (st : AttrStore) (u : Nat) (name? : Option String) :
    Except PyError (Attr × AttrStore) :=
  match st.rows.filter (matchesKwargs u name?) with
  | [] =>
      let a : Attr := ⟨st.nextId, u, name?.getD ""⟩
      .ok (a, ⟨st.rows ++ [a], st.nextId + 1⟩)
  | [a] => .ok (a, st)
  | _ => .error .multipleObjectsReturned

/-- `RecipeSerializer._get_or_create_tags`: for each entry, only when it is
a dict containing a `name` key, get-or-create the tag for the
authenticated user and add it to the recipe's tag association; other
entries are skipped. -/
def getOrCreateTags (authUser : Nat) :
    List Entry → AttrStore → List Nat → Except PyError (AttrStore × List Nat)
  | [], st, assoc => .ok (st, assoc)
  | .dict (some n) :: rest, st, assoc =>
      match getOrCreate st authUser (some n) with
      | .error e => .error e
      | .ok (a, st') => getOrCreateTags authUser rest st' (m2mAdd assoc a.id)
  | .dict none :: rest, st, assoc => getOrCreateTags authUser rest st assoc
  | .nonDict :: rest, st, assoc => getOrCreateTags authUser rest st assoc

/-- `RecipeSerializer._get_or_create_ingredients`: no shape check — every
entry is passed to `get_or_create(user=auth_user, **ingredient)`;
`**`-unpacking a non-dict raises `TypeError`. -/
def getOrCreateIngredients (authUser : Nat) :
    List Entry → AttrStore → List Nat → Except PyError (AttrStore × List Nat)
  | [], st, assoc => .ok (st, assoc)
  | .dict name? :: rest, st, assoc =>
      match getOrCreate st authUser name? with
      | .error e => .error e
      | .ok (a, st') => getOrCreateIngredients authUser rest st' (m2mAdd assoc a.id)
  | .nonDict :: _, _, _ => .error .typeError

/-- The validated data reaching `create`/`update`: `RecipeSerializer.Meta`
declares fields id/title/time_minutes/price/link/tags/ingredients (plus
description on the detail serializer), with id read-only; a field is
`none` when not submitted. -/
structure ValidatedData where
  title? : Option String := none
  timeMinutes? : Option Nat := none
  price? : Option Rat := none
  link? : Option String := none
  description? : Option String := none
  tags? : Option (List Entry) := none
  ingredients? : Option (List Entry) := none
deriving DecidableEq, Repr

/-- A raw request body, before serializer validation: the declared fields
plus values for `user` and `id`, which a client may also submit. -/
structure RawInput where
  title? : Option String := none
  timeMinutes? : Option Nat := none
  price? : Option Rat := none
  link? : Option String := none
  description? : Option String := none
  tags? : Option (List Entry) := none
  ingredients? : Option (List Entry) := none
  user? : Option Nat := none
  id? : Option Nat := none
deriving DecidableEq, Repr

/-- Serializer validation: only the fields declared in `Meta.fields` are
kept (`user` is not declared, `id` is read-only, so both are dropped
silently). -/
def toValidated (raw : RawInput) : ValidatedData :=
  { title? := raw.title?
    timeMinutes? := raw.timeMinutes?
    price? := raw.price?
    link? := raw.link?
    description? := raw.description?
    tags? := raw.tags?
    ingredients? := raw.ingredients? }

/-- The `for attr, value in validated_data.items(): setattr(instance, attr,
value)` loop of `update`, after tags/ingredients were popped: each
remaining submitted scalar field overwrites the instance's field. -/
def applyScalars (vd : ValidatedData) (r : Recipe) : Recipe :=
  { r with
    title := vd.title?.getD r.title
    timeMinutes := vd.timeMinutes?.getD r.timeMinutes
    price := vd.price?.getD r.price
    link := vd.link?.getD r.link
    description := vd.description?.getD r.description }

/-- `instance.save()`: write the row back into the recipe table. -/
def saveRecipe (db : Db) (r : Recipe) : Db :=
  { db with recipes := db.recipes.map (fun x => if x.id == r.id then r else x) }

/-- `RecipeSerializer.create`: pop tags and ingredients (defaulting to
empty lists), create the recipe row with the requesting user as owner
(`perform_create` passes `user=request.user`), then reconcile tags, then
ingredients. -/
def serializerCreate (authUser : Nat) (db : Db) (vd : ValidatedData) :
    Except PyError (Db × Recipe) :=
  let tags := vd.tags?.getD []
  let ingredients := vd.ingredients?.getD []
  let r0 : Recipe :=
    { id := db.nextRecipeId, user := authUser
      title := vd.title?.getD "", timeMinutes := vd.timeMinutes?.getD 0
      price := vd.price?.getD 0, link := vd.link?.getD ""
      description := vd.description?.getD "", tagIds := [], ingredientIds := [] }
  let db1 : Db :=
    { db with recipes := db.recipes ++ [r0], nextRecipeId := db.nextRecipeId + 1 }
  match getOrCreateTags authUser tags db1.tags r0.tagIds with
  | .error e => .error e
  | .ok (tst, tassoc) =>
      match getOrCreateIngredients authUser ingredients db1.ingredients r0.ingredientIds with
      | .error e => .error e
      | .ok (ist, iassoc) =>
          let r := { r0 with tagIds := tassoc, ingredientIds := iassoc }
          .ok (saveRecipe { db1 with tags := tst, ingredients := ist } r, r)

/-- The branch structure of `RecipeSerializer.update` after popping
`tags` and `ingredients` (passed here as the last two arguments): when
ingredients were submitted (even empty), clear the relation and
reconcile; then the same for tags; then set the remaining scalar fields
and save. -/
def serializerUpdateCore (authUser : Nat) (db : Db) (inst : Recipe) (vd : ValidatedData) :
    Option (List Entry) → Option (List Entry) → Except PyError (Db × Recipe)
  | some il, some tl =>
      match getOrCreateIngredients authUser il db.ingredients [] with
      | .error e => .error e
      | .ok (ist, iassoc) =>
          match getOrCreateTags authUser tl db.tags [] with
          | .error e => .error e
          | .ok (tst, tassoc) =>
              let r := applyScalars vd { inst with ingredientIds := iassoc, tagIds := tassoc }
              .ok (saveRecipe { db with ingredients := ist, tags := tst } r, r)
  | some il, none =>
      match getOrCreateIngredients authUser il db.ingredients [] with
      | .error e => .error e
      | .ok (ist, iassoc) =>
          let r := applyScalars vd { inst with ingredientIds := iassoc }
          .ok (saveRecipe { db with ingredients := ist } r, r)
  | none, some tl =>
      match getOrCreateTags authUser tl db.tags [] with
      | .error e => .error e
      | .ok (tst, tassoc) =>
          let r := applyScalars vd { inst with tagIds := tassoc }
          .ok (saveRecipe { db with tags := tst } r, r)
  | none, none =>
      let r := applyScalars vd inst
      .ok (saveRecipe db r, r)

/-- `RecipeSerializer.update`: `tags = validated_data.pop('tags', None)`,
`ingredients = validated_data.pop('ingredients', None)`, then the branch
logic above. -/
def serializerUpdate (authUser : Nat) (db : Db) (inst : Recipe) (vd : ValidatedData) :
    Except PyError (Db × Recipe) :=
  serializerUpdateCore authUser db inst vd vd.ingredients? vd.tags?

/-- Python's `str.split(',')` on the character list of the string: every
comma separates, empty tokens are kept, and the empty string yields one
empty token. -/
def splitOnComma : List Char → List (List Char)
  | [] => [[]]
  | c :: rest =>
      match splitOnComma rest, c == ',' with
      | r, true => [] :: r
      | [], false => [[c]]
      | t :: ts, false => (c :: t) :: ts

/-- Strip leading and trailing whitespace, as Python's `int()` does before
parsing. -/
def stripWs (l : List Char) : List Char :=
  ((l.dropWhile Char.isWhitespace).reverse.dropWhile Char.isWhitespace).reverse

/-- A non-empty run of decimal digits. -/
def isDigits (l : List Char) : Bool :=
  !l.isEmpty && l.all Char.isDigit

/-- Decimal value of a digit run. -/
def digitsToNat (l : List Char) : Nat :=
  l.foldl (fun acc c => acc * 10 + (c.toNat - 48)) 0

/-- Python's `int(s)` on a string: optional surrounding whitespace, an
optional sign, then at least one digit; anything else raises `ValueError`. -/
def pyInt (s : String) : Except PyError Int :=
  match stripWs s.toList with
  | '+' :: rest => if isDigits rest then .ok (digitsToNat rest) else .error .valueError
  | '-' :: rest => if isDigits rest then .ok (-(digitsToNat rest : Int)) else .error .valueError
  | rest => if isDigits rest then .ok (digitsToNat rest) else .error .valueError

/-- The list comprehension `[int(str_id) for str_id in qs.split(',')]`:
tokens are converted left to right and the first bad token raises. -/
def mapPyInt : List (List Char) → Except PyError (List Int)
  | [] => .ok []
  | t :: rest =>
      match pyInt (String.mk t) with
      | .error e => .error e
      | .ok i =>
          match mapPyInt rest with
          | .error e => .error e
          | .ok l => .ok (i :: l)

/-- `RecipeViewSet._params_to_ints`. -/
def paramsToInts (qs : String) : Except PyError (List Int) :=
  mapPyInt (splitOnComma qs.toList)

/-- Python truthiness of `query_params.get(...)`: `None` and the empty
string are falsy. -/
def truthy : Option String → Bool
  | none => false
  | some s => !(s == "")

/-- `order_by('-id')`: sort descending by primary key. -/
def orderByIdDesc (l : List Recipe) : List Recipe :=
  l.insertionSort (fun a b => b.id ≤ a.id)

/-- `order_by('-name')`: sort descending by name. -/
def orderByNameDesc (l : List Attr) : List Attr :=
  l.insertionSort (fun a b => b.name ≤ a.name)

/-- `queryset.filter(tags__id__in=...)` / `(ingredients__id__in=...)` once
the id list parsed: keep the recipes having at least one associated
attribute id (under `proj`) in the parsed list; a parse failure
propagates. -/
def filterByIds (qs : List Recipe) (proj : Recipe → List Nat) :
    Except PyError (List Int) → Except PyError (List Recipe)
  | .error e => .error e
  | .ok ids => .ok (qs.filter (fun r => (proj r).any (fun t => ids.contains (t : Int))))

/-- The `if tags:` line of `get_queryset`: a truthy `tags` param is parsed
and applied as a filter. -/
def tagFilterStep (db : Db) (tp : Option String) : Except PyError (List Recipe) :=
  if truthy tp then filterByIds db.recipes Recipe.tagIds (paramsToInts (tp.getD ""))
  else .ok db.recipes

/-- The `if ingredients:` line, applied to the outcome of the tags step. -/
def ingFilterStep (ip : Option String) : Except PyError (List Recipe) →
    Except PyError (List Recipe)
  | .error e => .error e
  | .ok qs1 =>
      if truthy ip then filterByIds qs1 Recipe.ingredientIds (paramsToInts (ip.getD ""))
      else .ok qs1

/-- The final `.filter(user=...).order_by('-id').distinct()` line. -/
def finishRecipeQs (user : Nat) : Except PyError (List Recipe) →
    Except PyError (List Recipe)
  | .error e => .error e
  | .ok qs2 => .ok (orderByIdDesc (qs2.filter (fun r => r.user == user))).dedup

/-- `RecipeViewSet.get_queryset`: start from all recipes; when the `tags`
query param is truthy, parse it and keep recipes having at least one
associated tag id in the parsed list; likewise for `ingredients`; then
restrict to the requesting user, order by `-id` and de-duplicate. -/
def recipeGetQueryset (db : Db) (user : Nat) (tagsParam ingParam : Option String) :
    Except PyError (List Recipe) :=
  finishRecipeQs user (ingFilterStep ingParam (tagFilterStep db tagsParam))

/-- Which attribute table a `BaseRecipeAttrViewSet` subclass serves. -/
inductive AttrKind where
  | tag
  | ingredient
deriving DecidableEq, Repr

/-- The rows of the served attribute table. -/
def attrRows (db : Db) : AttrKind → List Attr
  | .tag => db.tags.rows
  | .ingredient => db.ingredients.rows

/-- A recipe's association ids for the served attribute kind. -/
def recipeRefs (r : Recipe) : AttrKind → List Nat
  | .tag => r.tagIds
  | .ingredient => r.ingredientIds

/-- `int(self.request.query_params.get('assigned_only', 0))`: the integer
default is returned as-is when the param is absent; a present param is a
string fed to `int()`. -/
def assignedFlag : Option String → Except PyError Int
  | none => .ok 0
  | some s => pyInt s

/-- The body of `BaseRecipeAttrViewSet.get_queryset` once the
`assigned_only` parameter is parsed (`bool(...)` is truth of a non-zero
int): restrict to the requesting user's attributes, keep only attributes
referenced by some recipe when `assigned_only`, order by `-name`,
de-duplicate; a parse failure propagates. -/
def attrQsCore (db : Db) (kind : AttrKind) (user : Nat) :
    Except PyError Int → Except PyError (List Attr)
  | .error e => .error e
  | .ok v =>
      let assignedOnly : Bool := !(v == 0)
      let qs := (attrRows db kind).filter (fun a => a.user == user)
      let qs :=
        if assignedOnly then
          qs.filter (fun a => db.recipes.any (fun r => (recipeRefs r kind).contains a.id))
        else qs
      .ok (orderByNameDesc qs).dedup

/-- `BaseRecipeAttrViewSet.get_queryset`: `assigned_only =
bool(int(query_params.get('assigned_only', 0)))`, then the filtering
above. -/
def attrGetQueryset (db : Db) (kind : AttrKind) (user : Nat)
    (assignedParam : Option String) : Except PyError (List Attr) :=
  attrQsCore db kind user (assignedFlag assignedParam)

/-- `get_object_or_404(queryset, pk=pk)` over a materialized queryset:
no match raises `Http404`, several raise `MultipleObjectsReturned`. -/
def pickRecipeByPk (pk : Nat) : Except PyError (List Recipe) → Except PyError Recipe
  | .error e => .error e
  | .ok l =>
      match l.filter (fun r => r.id == pk) with
      | [] => .error .notFound
      | [r] => .ok r
      | _ => .error .multipleObjectsReturned

/-- DRF's `get_object` for a recipe detail route: filter the view's
queryset (detail requests carry no filter params) by the pk from the URL. -/
def recipeGetObject (db : Db) (user : Nat) (pk : Nat) : Except PyError Recipe :=
  pickRecipeByPk pk (recipeGetQueryset db user none none)

/-- `get_object_or_404` over a materialized attribute queryset. -/
def pickAttrByPk (pk : Nat) : Except PyError (List Attr) → Except PyError Attr
  | .error e => .error e
  | .ok l =>
      match l.filter (fun a => a.id == pk) with
      | [] => .error .notFound
      | [a] => .ok a
      | _ => .error .multipleObjectsReturned

/-- DRF's `get_object` for a tag/ingredient detail route. -/
def attrGetObject (db : Db) (kind : AttrKind) (user : Nat) (pk : Nat) :
    Except PyError Attr :=
  pickAttrByPk pk (attrGetQueryset db kind user none)

/-- `DELETE /recipes/{id}`: look the recipe up in the owner-scoped
queryset; on success delete the row (its association rows go with it);
on failure the store is untouched. -/
def destroyRecipeView (db : Db) (user : Nat) (pk : Nat) : Except PyError Unit × Db :=
  match recipeGetObject db user pk with
  | .error e => (.error e, db)
  | .ok r => (.ok (), { db with recipes := db.recipes.filter (fun x => !(x.id == r.id)) })

/-- `PATCH /recipes/{id}`: look the recipe up in the owner-scoped queryset,
then run the serializer's `update`; on lookup failure the store is
untouched. -/
def updateRecipeView (db : Db) (user : Nat) (pk : Nat) (raw : RawInput) :
    Except PyError Recipe × Db :=
  match recipeGetObject db user pk with
  | .error e => (.error e, db)
  | .ok r =>
      match serializerUpdate user db r (toValidated raw) with
      | .error e => (.error e, db)
      | .ok (db', r') => (.ok r', db')

/-- `GET /recipes/{id}`: retrieve via the owner-scoped queryset. -/
def retrieveRecipeView (db : Db) (user : Nat) (pk : Nat) : Except PyError Recipe × Db :=
  match recipeGetObject db user pk with
  | .error e => (.error e, db)
  | .ok r => (.ok r, db)

/-- `DELETE /tags/{id}` and `/ingredients/{id}`. -/
def destroyAttrView (db : Db) (kind : AttrKind) (user : Nat) (pk : Nat) :
    Except PyError Unit × Db :=
  match attrGetObject db kind user pk with
  | .error e => (.error e, db)
  | .ok a =>
      match kind with
      | .tag =>
          (.ok (), { db with
            tags := ⟨db.tags.rows.filter (fun x => !(x.id == a.id)), db.tags.nextId⟩
            recipes := db.recipes.map
              (fun r => { r with tagIds := r.tagIds.filter (fun i => !(i == a.id)) }) })
      | .ingredient =>
          (.ok (), { db with
            ingredients := ⟨db.ingredients.rows.filter (fun x => !(x.id == a.id)),
              db.ingredients.nextId⟩
            recipes := db.recipes.map
              (fun r => { r with
                ingredientIds := r.ingredientIds.filter (fun i => !(i == a.id)) }) })

/-- `PATCH /tags/{id}` and `/ingredients/{id}`: rename in place. -/
def updateAttrView (db : Db) (kind : AttrKind) (user : Nat) (pk : Nat)
    (newName : String) : Except PyError Unit × Db :=
  match attrGetObject db kind user pk with
  | .error e => (.error e, db)
  | .ok a =>
      let rename : List Attr → List Attr := fun rows =>
        rows.map (fun x => if x.id == a.id then { x with name := newName } else x)
      match kind with
      | .tag => (.ok (), { db with tags := ⟨rename db.tags.rows, db.tags.nextId⟩ })
      | .ingredient =>
          (.ok (), { db with ingredients := ⟨rename db.ingredients.rows, db.ingredients.nextId⟩ })

/-- `GET /tags/{id}` / `/ingredients/{id}`: `BaseRecipeAttrViewSet` mixes
in only `DestroyModelMixin`, `UpdateModelMixin` and `ListModelMixin` — no
`RetrieveModelMixin` — so the router binds no GET handler on the detail
route and DRF's dispatch answers 405 Method Not Allowed for every user,
before any queryset or ownership check runs; the store is untouched. -/
def retrieveAttrView (db : Db) (_kind : AttrKind) (_user : Nat) (_pk : Nat) :
    Except PyError Attr × Db :=
  (.error .methodNotAllowed, db)

/-- Equality of computation outcomes is decidable. -/
instance {ε α : Type} [DecidableEq ε] [DecidableEq α] : DecidableEq (Except ε α) :=
  fun x y =>
    match x, y with
    | .error e, .error f => decidable_of_iff (e = f) (by simp)
    | .error _, .ok _ => .isFalse (by simp)
    | .ok _, .error _ => .isFalse (by simp)
    | .ok a, .ok b => decidable_of_iff (a = b) (by simp)

/-- Number of rows of the store matching `get_or_create`'s kwargs
`user=u, name=n` — the "duplicate attribute rows" a claim counts. -/
def countKey (st : AttrStore) (u : Nat) (n : String) : Nat :=
  (st.rows.filter (matchesKwargs u (some n))).length

/-- The `(owner, name)` pair `(v, m)` is associated with the recipe: some
row of the store with that owner and name has its id in the association
list. -/
def assocHasName (st : AttrStore) (assoc : List Nat) (v : Nat) (m : String) : Prop :=
  ∃ a ∈ st.rows, a.id ∈ assoc ∧ a.user = v ∧ a.name = m

/-- A well-formed attribute table: primary keys are distinct, the
`(owner, name)` natural keys are distinct (the reconciliation logic's
invariant, spec §3), and every key is below the auto-increment counter. -/
def storeWf (st : AttrStore) : Prop :=
  (st.rows.map Attr.id).Nodup ∧
  ((st.rows.map fun a => (a.user, a.name)).Nodup) ∧
  (∀ a ∈ st.rows, a.id < st.nextId)

/-- An association list only references already-allocated primary keys. -/
def assocValid (st : AttrStore) (assoc : List Nat) : Prop :=
  ∀ i ∈ assoc, i < st.nextId

/-- States reachable through the API associate a recipe only with
attributes of its own owner: every write path resolves attributes with
`user=request.user` against a recipe of that same user. -/
def assocOwnerConsistent (db : Db) (k : AttrKind) : Prop :=
  ∀ r ∈ db.recipes, ∀ a ∈ attrRows db k, a.id ∈ recipeRefs r k → a.user = r.user

/-! ## Parsing lemmas -/

theorem pyInt_error_eq {s : String} {e : PyError} (h : pyInt s = .error e) :
    e = .valueError := by
  unfold pyInt at h
  split at h <;> split at h <;> simp_all

theorem mapPyInt_error_eq {ts : List (List Char)} {e : PyError}
    (h : mapPyInt ts = .error e) : e = .valueError := by
  induction ts with
  | nil => simp [mapPyInt] at h
  | cons t rest ih =>
      unfold mapPyInt at h
      cases hhd : pyInt (String.mk t) with
      | error f =>
          rw [hhd] at h
          injection h with h
          exact h ▸ pyInt_error_eq hhd
      | ok i =>
          rw [hhd] at h
          cases hrest : mapPyInt rest with
          | error f =>
              rw [hrest] at h
              injection h with h
              exact h ▸ ih (h ▸ hrest)
          | ok l =>
              rw [hrest] at h
              exact absurd h (by simp)

theorem mapPyInt_error_of_mem {ts : List (List Char)} {t : List Char}
    (hmem : t ∈ ts) {e : PyError} (he : pyInt (String.mk t) = .error e) :
    mapPyInt ts = .error .valueError := by
  induction ts with
  | nil => simp at hmem
  | cons hd rest ih =>
      unfold mapPyInt
      rcases List.mem_cons.mp hmem with rfl | hmem'
      · rw [he, pyInt_error_eq he]
      · cases hhd : pyInt (String.mk hd) with
        | error f => rw [pyInt_error_eq hhd]
        | ok i => rw [ih hmem']

/-! ## Update lemmas -/

theorem applyScalars_user (vd : ValidatedData) (r : Recipe) :
    (applyScalars vd r).user = r.user := rfl

theorem applyScalars_tagIds (vd : ValidatedData) (r : Recipe) :
    (applyScalars vd r).tagIds = r.tagIds := rfl

theorem applyScalars_ingredientIds (vd : ValidatedData) (r : Recipe) :
    (applyScalars vd r).ingredientIds = r.ingredientIds := rfl

theorem saveRecipe_tags (db : Db) (r : Recipe) :
    (saveRecipe db r).tags = db.tags := rfl

theorem saveRecipe_ingredients (db : Db) (r : Recipe) :
    (saveRecipe db r).ingredients = db.ingredients := rfl

/-! ## Listing lemmas -/

instance : IsTotal Recipe (fun a b => b.id ≤ a.id) :=
  ⟨fun a b => le_total b.id a.id⟩

instance : IsTrans Recipe (fun a b => b.id ≤ a.id) :=
  ⟨fun _ _ _ hab hbc => le_trans hbc hab⟩

instance : IsTotal Attr (fun a b => b.name ≤ a.name) :=
  ⟨fun a b => le_total b.name a.name⟩

instance : IsTrans Attr (fun a b => b.name ≤ a.name) :=
  ⟨fun _ _ _ hab hbc => le_trans hbc hab⟩

theorem mem_recipeListing {l0 : List Recipe} {r : Recipe} :
    r ∈ (orderByIdDesc l0).dedup ↔ r ∈ l0 := by
  rw [List.mem_dedup]
  exact (List.perm_insertionSort _ l0).mem_iff

theorem sorted_recipeListing (l0 : List Recipe) :
    List.Sorted (fun a b => b.id ≤ a.id) ((orderByIdDesc l0).dedup) :=
  List.Pairwise.sublist (List.dedup_sublist _) (List.sorted_insertionSort _ l0)

theorem mem_attrListing {l0 : List Attr} {a : Attr} :
    a ∈ (orderByNameDesc l0).dedup ↔ a ∈ l0 := by
  rw [List.mem_dedup]
  exact (List.perm_insertionSort _ l0).mem_iff

theorem sorted_attrListing (l0 : List Attr) :
    List.Sorted (fun a b => b.name ≤ a.name) ((orderByNameDesc l0).dedup) :=
  List.Pairwise.sublist (List.dedup_sublist _) (List.sorted_insertionSort _ l0)

/-! ## Reconciliation lemmas -/

theorem matches_iff {u : Nat} {n : String} {b : Attr} :
    matchesKwargs u (some n) b = true ↔ b.user = u ∧ b.name = n := by
  simp [matchesKwargs]

theorem mem_m2mAdd_iff {assoc : List Nat} {i j : Nat} :
    i ∈ m2mAdd assoc j ↔ i ∈ assoc ∨ i = j := by
  unfold m2mAdd
  split
  · rename_i h
    constructor
    · exact Or.inl
    · rintro (h1 | rfl)
      · exact h1
      · exact h
  · simp [List.mem_append]

theorem mem_m2mAdd_self {assoc : List Nat} {j : Nat} : j ∈ m2mAdd assoc j :=
  mem_m2mAdd_iff.mpr (Or.inr rfl)

theorem mem_m2mAdd_of_mem {assoc : List Nat} {i j : Nat} (h : i ∈ assoc) :
    i ∈ m2mAdd assoc j :=
  mem_m2mAdd_iff.mpr (Or.inl h)

theorem countKey_pos_iff {st : AttrStore} {u : Nat} {n : String} :
    1 ≤ countKey st u n ↔ ∃ b ∈ st.rows, b.user = u ∧ b.name = n := by
  unfold countKey
  constructor
  · intro h
    have hne : st.rows.filter (matchesKwargs u (some n)) ≠ [] := by
      intro hnil
      rw [hnil] at h
      simp at h
    obtain ⟨b, hb⟩ := List.exists_mem_of_ne_nil _ hne
    obtain ⟨hbm, hbp⟩ := List.mem_filter.mp hb
    exact ⟨b, hbm, matches_iff.mp hbp⟩
  · rintro ⟨b, hbm, hbu, hbn⟩
    have hb : b ∈ st.rows.filter (matchesKwargs u (some n)) :=
      List.mem_filter.mpr ⟨hbm, matches_iff.mpr ⟨hbu, hbn⟩⟩
    exact Nat.succ_le_of_lt (List.length_pos.mpr (List.ne_nil_of_mem hb))

/-- The workhorse: a successful `get_or_create` step leaves the set of
rows matching any `(user, name)` kwargs pair unchanged, whenever at least
one row already matches that pair. -/
theorem getOrCreate_filter_key {st : AttrStore} {u' : Nat} {n? : Option String}
    {b : Attr} {st' : AttrStore} (h : getOrCreate st u' n? = .ok (b, st'))
    (u : Nat) (n : String)
    (hne : st.rows.filter (matchesKwargs u (some n)) ≠ []) :
    st'.rows.filter (matchesKwargs u (some n)) =
      st.rows.filter (matchesKwargs u (some n)) := by
  unfold getOrCreate at h
  cases hflt : st.rows.filter (matchesKwargs u' n?) with
  | nil =>
      rw [hflt] at h
      injection h with h
      cases h
      dsimp only
      rw [List.filter_append]
      have hnew : matchesKwargs u (some n) (⟨st.nextId, u', n?.getD ""⟩ : Attr) = false := by
        cases hm : matchesKwargs u (some n) (⟨st.nextId, u', n?.getD ""⟩ : Attr) with
        | false => rfl
        | true =>
            exfalso
            obtain ⟨hu, hn⟩ := matches_iff.mp hm
            have hu' : u' = u := hu
            obtain ⟨c, hcm⟩ := List.exists_mem_of_ne_nil _ hne
            obtain ⟨hcmem, hcp⟩ := List.mem_filter.mp hcm
            obtain ⟨hcu, hcn⟩ := matches_iff.mp hcp
            have hcmatch : matchesKwargs u' n? c = true := by
              cases n? with
              | none => simp [matchesKwargs, hcu, hu']
              | some m =>
                  have hn' : m = n := hn
                  simp [matchesKwargs, hcu, hu', hcn, hn']
            have : c ∈ st.rows.filter (matchesKwargs u' n?) :=
              List.mem_filter.mpr ⟨hcmem, hcmatch⟩
            rw [hflt] at this
            simp at this
      simp [hnew]
  | cons c t =>
      cases t with
      | nil =>
          rw [hflt] at h
          injection h with h
          cases h
          rfl
      | cons d t2 =>
          rw [hflt] at h
          simp at h

theorem getOrCreate_rows_mono {st : AttrStore} {u' : Nat} {n? : Option String}
    {b : Attr} {st' : AttrStore} (h : getOrCreate st u' n? = .ok (b, st')) :
    ∀ x ∈ st.rows, x ∈ st'.rows := by
  unfold getOrCreate at h
  cases hflt : st.rows.filter (matchesKwargs u' n?) with
  | nil =>
      rw [hflt] at h
      injection h with h
      cases h
      intro x hx
      exact List.mem_append_left _ hx
  | cons c t =>
      cases t with
      | nil =>
          rw [hflt] at h
          injection h with h
          cases h
          intro x hx
          exact hx
      | cons d t2 =>
          rw [hflt] at h
          simp at h

theorem getOrCreateTags_filter_key {u' : Nat} {L : List Entry} :
    ∀ {st : AttrStore} {assoc : List Nat} {st' : AttrStore} {assoc' : List Nat},
      getOrCreateTags u' L st assoc = .ok (st', assoc') →
      ∀ (u : Nat) (n : String), st.rows.filter (matchesKwargs u (some n)) ≠ [] →
      st'.rows.filter (matchesKwargs u (some n)) =
        st.rows.filter (matchesKwargs u (some n)) := by
  induction L with
  | nil =>
      intro st assoc st' assoc' h u n _
      simp only [getOrCreateTags] at h
      injection h with h
      cases h
      rfl
  | cons e rest ih =>
      intro st assoc st' assoc' h u n hne
      cases e with
      | nonDict =>
          simp only [getOrCreateTags] at h
          exact ih h u n hne
      | dict m? =>
          cases m? with
          | none =>
              simp only [getOrCreateTags] at h
              exact ih h u n hne
          | some m =>
              simp only [getOrCreateTags] at h
              cases hgc : getOrCreate st u' (some m) with
              | error e0 =>
                  rw [hgc] at h
                  simp at h
              | ok p =>
                  obtain ⟨b, st1⟩ := p
                  rw [hgc] at h
                  dsimp only at h
                  have hstep := getOrCreate_filter_key hgc u n hne
                  have hne1 : st1.rows.filter (matchesKwargs u (some n)) ≠ [] := by
                    rw [hstep]
                    exact hne
                  rw [ih h u n hne1, hstep]

theorem getOrCreateIngredients_filter_key {u' : Nat} {L : List Entry} :
    ∀ {st : AttrStore} {assoc : List Nat} {st' : AttrStore} {assoc' : List Nat},
      getOrCreateIngredients u' L st assoc = .ok (st', assoc') →
      ∀ (u : Nat) (n : String), st.rows.filter (matchesKwargs u (some n)) ≠ [] →
      st'.rows.filter (matchesKwargs u (some n)) =
        st.rows.filter (matchesKwargs u (some n)) := by
  induction L with
  | nil =>
      intro st assoc st' assoc' h u n _
      simp only [getOrCreateIngredients] at h
      injection h with h
      cases h
      rfl
  | cons e rest ih =>
      intro st assoc st' assoc' h u n hne
      cases e with
      | nonDict =>
          simp only [getOrCreateIngredients] at h
          simp at h
      | dict m? =>
          simp only [getOrCreateIngredients] at h
          cases hgc : getOrCreate st u' m? with
          | error e0 =>
              rw [hgc] at h
              simp at h
          | ok p =>
              obtain ⟨b, st1⟩ := p
              rw [hgc] at h
              dsimp only at h
              have hstep := getOrCreate_filter_key hgc u n hne
              have hne1 : st1.rows.filter (matchesKwargs u (some n)) ≠ [] := by
                rw [hstep]
                exact hne
              rw [ih h u n hne1, hstep]

theorem getOrCreateTags_rows_mono {u' : Nat} {L : List Entry} :
    ∀ {st : AttrStore} {assoc : List Nat} {st' : AttrStore} {assoc' : List Nat},
      getOrCreateTags u' L st assoc = .ok (st', assoc') →
      ∀ x ∈ st.rows, x ∈ st'.rows := by
  induction L with
  | nil =>
      intro st assoc st' assoc' h x hx
      simp only [getOrCreateTags] at h
      injection h with h
      cases h
      exact hx
  | cons e rest ih =>
      intro st assoc st' assoc' h x hx
      cases e with
      | nonDict =>
          simp only [getOrCreateTags] at h
          exact ih h x hx
      | dict m? =>
          cases m? with
          | none =>
              simp only [getOrCreateTags] at h
              exact ih h x hx
          | some m =>
              simp only [getOrCreateTags] at h
              cases hgc : getOrCreate st u' (some m) with
              | error e0 =>
                  rw [hgc] at h
                  simp at h
              | ok p =>
                  obtain ⟨b, st1⟩ := p
                  rw [hgc] at h
                  dsimp only at h
                  exact ih h x (getOrCreate_rows_mono hgc x hx)

theorem getOrCreateTags_assoc_mono {u' : Nat} {L : List Entry} :
    ∀ {st : AttrStore} {assoc : List Nat} {st' : AttrStore} {assoc' : List Nat},
      getOrCreateTags u' L st assoc = .ok (st', assoc') →
      ∀ i ∈ assoc, i ∈ assoc' := by
  induction L with
  | nil =>
      intro st assoc st' assoc' h i hi
      simp only [getOrCreateTags] at h
      injection h with h
      cases h
      exact hi
  | cons e rest ih =>
      intro st assoc st' assoc' h i hi
      cases e with
      | nonDict =>
          simp only [getOrCreateTags] at h
          exact ih h i hi
      | dict m? =>
          cases m? with
          | none =>
              simp only [getOrCreateTags] at h
              exact ih h i hi
          | some m =>
              simp only [getOrCreateTags] at h
              cases hgc : getOrCreate st u' (some m) with
              | error e0 =>
                  rw [hgc] at h
                  simp at h
              | ok p =>
                  obtain ⟨b, st1⟩ := p
                  rw [hgc] at h
                  dsimp only at h
                  exact ih h i (mem_m2mAdd_of_mem hi)

theorem getOrCreateIngredients_assoc_mono {u' : Nat} {L : List Entry} :
    ∀ {st : AttrStore} {assoc : List Nat} {st' : AttrStore} {assoc' : List Nat},
      getOrCreateIngredients u' L st assoc = .ok (st', assoc') →
      ∀ i ∈ assoc, i ∈ assoc' := by
  induction L with
  | nil =>
      intro st assoc st' assoc' h i hi
      simp only [getOrCreateIngredients] at h
      injection h with h
      cases h
      exact hi
  | cons e rest ih =>
      intro st assoc st' assoc' h i hi
      cases e with
      | nonDict =>
          simp only [getOrCreateIngredients] at h
          simp at h
      | dict m? =>
          simp only [getOrCreateIngredients] at h
          cases hgc : getOrCreate st u' m? with
          | error e0 =>
              rw [hgc] at h
              simp at h
          | ok p =>
              obtain ⟨b, st1⟩ := p
              rw [hgc] at h
              dsimp only at h
              exact ih h i (mem_m2mAdd_of_mem hi)

theorem getOrCreateIngredients_rows_mono {u' : Nat} {L : List Entry} :
    ∀ {st : AttrStore} {assoc : List Nat} {st' : AttrStore} {assoc' : List Nat},
      getOrCreateIngredients u' L st assoc = .ok (st', assoc') →
      ∀ x ∈ st.rows, x ∈ st'.rows := by
  induction L with
  | nil =>
      intro st assoc st' assoc' h x hx
      simp only [getOrCreateIngredients] at h
      injection h with h
      cases h
      exact hx
  | cons e rest ih =>
      intro st assoc st' assoc' h x hx
      cases e with
      | nonDict =>
          simp only [getOrCreateIngredients] at h
          simp at h
      | dict m? =>
          simp only [getOrCreateIngredients] at h
          cases hgc : getOrCreate st u' m? with
          | error e0 =>
              rw [hgc] at h
              simp at h
          | ok p =>
              obtain ⟨b, st1⟩ := p
              rw [hgc] at h
              dsimp only at h
              exact ih h x (getOrCreate_rows_mono hgc x hx)

/-- When the store has exactly one row matching `(u, n)` and a
`{name: n}` spec is in the submitted list, the run associates that
row's id. -/
theorem getOrCreateTags_assoc_of_unique {u : Nat} {n : String} {a : Attr}
    {L : List Entry} :
    ∀ {st : AttrStore} {assoc : List Nat} {st' : AttrStore} {assoc' : List Nat},
      st.rows.filter (matchesKwargs u (some n)) = [a] →
      Entry.dict (some n) ∈ L →
      getOrCreateTags u L st assoc = .ok (st', assoc') →
      a.id ∈ assoc' := by
  induction L with
  | nil =>
      intro st assoc st' assoc' _ hmem _
      simp at hmem
  | cons e rest ih =>
      intro st assoc st' assoc' hflt hmem h
      rcases List.mem_cons.mp hmem with heq | hmem'
      · subst heq
        have hgc : getOrCreate st u (some n) = .ok (a, st) := by
          unfold getOrCreate
          rw [hflt]
        simp only [getOrCreateTags] at h
        rw [hgc] at h
        dsimp only at h
        exact getOrCreateTags_assoc_mono h a.id mem_m2mAdd_self
      · cases e with
        | nonDict =>
            simp only [getOrCreateTags] at h
            exact ih hflt hmem' h
        | dict m? =>
            cases m? with
            | none =>
                simp only [getOrCreateTags] at h
                exact ih hflt hmem' h
            | some m =>
                simp only [getOrCreateTags] at h
                cases hgc : getOrCreate st u (some m) with
                | error e0 =>
                    rw [hgc] at h
                    simp at h
                | ok p =>
                    obtain ⟨b, st1⟩ := p
                    rw [hgc] at h
                    dsimp only at h
                    have hflt1 : st1.rows.filter (matchesKwargs u (some n)) = [a] := by
                      rw [getOrCreate_filter_key hgc u n (by rw [hflt]; simp), hflt]
                    exact ih hflt1 hmem' h

/-- Ingredient counterpart of the unique-match association lemma. -/
theorem getOrCreateIngredients_assoc_of_unique {u : Nat} {n : String} {a : Attr}
    {L : List Entry} :
    ∀ {st : AttrStore} {assoc : List Nat} {st' : AttrStore} {assoc' : List Nat},
      st.rows.filter (matchesKwargs u (some n)) = [a] →
      Entry.dict (some n) ∈ L →
      getOrCreateIngredients u L st assoc = .ok (st', assoc') →
      a.id ∈ assoc' := by
  induction L with
  | nil =>
      intro st assoc st' assoc' _ hmem _
      simp at hmem
  | cons e rest ih =>
      intro st assoc st' assoc' hflt hmem h
      rcases List.mem_cons.mp hmem with heq | hmem'
      · subst heq
        have hgc : getOrCreate st u (some n) = .ok (a, st) := by
          unfold getOrCreate
          rw [hflt]
        simp only [getOrCreateIngredients] at h
        rw [hgc] at h
        dsimp only at h
        exact getOrCreateIngredients_assoc_mono h a.id mem_m2mAdd_self
      · cases e with
        | nonDict =>
            simp only [getOrCreateIngredients] at h
            simp at h
        | dict m? =>
            simp only [getOrCreateIngredients] at h
            cases hgc : getOrCreate st u m? with
            | error e0 =>
                rw [hgc] at h
                simp at h
            | ok p =>
                obtain ⟨b, st1⟩ := p
                rw [hgc] at h
                dsimp only at h
                have hflt1 : st1.rows.filter (matchesKwargs u (some n)) = [a] := by
                  rw [getOrCreate_filter_key hgc u n (by rw [hflt]; simp), hflt]
                exact ih hflt1 hmem' h

/-- A successful `create` ran the tag reconciliation from the pre-create
tag table and an empty association, and its results are the new recipe's
tag association and the final tag table; likewise for ingredients. -/
theorem serializerCreate_ok_elim {u : Nat} {db : Db} {vd : ValidatedData}
    {db' : Db} {r' : Recipe} (h : serializerCreate u db vd = .ok (db', r')) :
    getOrCreateTags u (vd.tags?.getD []) db.tags [] = .ok (db'.tags, r'.tagIds) ∧
    getOrCreateIngredients u (vd.ingredients?.getD []) db.ingredients [] =
      .ok (db'.ingredients, r'.ingredientIds) := by
  unfold serializerCreate at h
  dsimp only at h
  cases hgt : getOrCreateTags u (vd.tags?.getD []) db.tags [] with
  | error e0 =>
      rw [hgt] at h
      simp at h
  | ok p =>
      obtain ⟨tst, tassoc⟩ := p
      rw [hgt] at h
      dsimp only at h
      cases hgi : getOrCreateIngredients u (vd.ingredients?.getD []) db.ingredients [] with
      | error e0 =>
          rw [hgi] at h
          simp at h
      | ok q =>
          obtain ⟨ist, iassoc⟩ := q
          rw [hgi] at h
          dsimp only at h
          injection h with h
          cases h
          exact ⟨by simpa [saveRecipe, applyScalars] using hgt,
            by simpa [saveRecipe, applyScalars] using hgi⟩

/-- A successful `update` that submitted a tags list ran the tag
reconciliation from the pre-update tag table and an empty association. -/
theorem serializerUpdate_some_tags {u : Nat} {db : Db} {i : Recipe}
    {vd : ValidatedData} {db' : Db} {r' : Recipe} {l : List Entry}
    (h : serializerUpdate u db i vd = .ok (db', r')) (hl : vd.tags? = some l) :
    getOrCreateTags u l db.tags [] = .ok (db'.tags, r'.tagIds) := by
  unfold serializerUpdate at h
  rw [hl] at h
  cases hii : vd.ingredients? with
  | some il =>
      rw [hii] at h
      simp only [serializerUpdateCore] at h
      cases hgi : getOrCreateIngredients u il db.ingredients [] with
      | error e0 =>
          rw [hgi] at h
          simp at h
      | ok q =>
          obtain ⟨ist, iassoc⟩ := q
          rw [hgi] at h
          dsimp only at h
          cases hgt : getOrCreateTags u l db.tags [] with
          | error e0 =>
              rw [hgt] at h
              simp at h
          | ok p =>
              obtain ⟨tst, tassoc⟩ := p
              rw [hgt] at h
              dsimp only at h
              injection h with h
              cases h
              simpa [saveRecipe, applyScalars] using hgt
  | none =>
      rw [hii] at h
      simp only [serializerUpdateCore] at h
      cases hgt : getOrCreateTags u l db.tags [] with
      | error e0 =>
          rw [hgt] at h
          simp at h
      | ok p =>
          obtain ⟨tst, tassoc⟩ := p
          rw [hgt] at h
          dsimp only at h
          injection h with h
          cases h
          simpa [saveRecipe, applyScalars] using hgt

/-- Ingredient counterpart for `update`. -/
theorem serializerUpdate_some_ingredients {u : Nat} {db : Db} {i : Recipe}
    {vd : ValidatedData} {db' : Db} {r' : Recipe} {l : List Entry}
    (h : serializerUpdate u db i vd = .ok (db', r'))
    (hl : vd.ingredients? = some l) :
    getOrCreateIngredients u l db.ingredients [] =
      .ok (db'.ingredients, r'.ingredientIds) := by
  unfold serializerUpdate at h
  rw [hl] at h
  cases hti : vd.tags? with
  | some tl =>
      rw [hti] at h
      simp only [serializerUpdateCore] at h
      cases hgi : getOrCreateIngredients u l db.ingredients [] with
      | error e0 =>
          rw [hgi] at h
          simp at h
      | ok q =>
          obtain ⟨ist, iassoc⟩ := q
          rw [hgi] at h
          dsimp only at h
          cases hgt : getOrCreateTags u tl db.tags [] with
          | error e0 =>
              rw [hgt] at h
              simp at h
          | ok p =>
              obtain ⟨tst, tassoc⟩ := p
              rw [hgt] at h
              dsimp only at h
              injection h with h
              cases h
              simpa [saveRecipe, applyScalars] using hgi
  | none =>
      rw [hti] at h
      simp only [serializerUpdateCore] at h
      cases hgi : getOrCreateIngredients u l db.ingredients [] with
      | error e0 =>
          rw [hgi] at h
          simp at h
      | ok q =>
          obtain ⟨ist, iassoc⟩ := q
          rw [hgi] at h
          dsimp only at h
          injection h with h
          cases h
          simpa [saveRecipe, applyScalars] using hgi

/-- Under distinct `(owner, name)` natural keys, at most one row matches
the `get_or_create` kwargs. -/
theorem filter_key_len_le {rows : List Attr}
    (hk : (rows.map fun a => (a.user, a.name)).Nodup) (u : Nat) (n : String) :
    (rows.filter (matchesKwargs u (some n))).length ≤ 1 := by
  induction rows with
  | nil => simp
  | cons c cs ih =>
      rw [List.map_cons, List.nodup_cons] at hk
      obtain ⟨hnotin, hk'⟩ := hk
      rw [List.filter_cons]
      by_cases hc : matchesKwargs u (some n) c = true
      · rw [if_pos hc]
        obtain ⟨hcu, hcn⟩ := matches_iff.mp hc
        have hnil : cs.filter (matchesKwargs u (some n)) = [] := by
          rw [List.filter_eq_nil_iff]
          intro d hd hdm
          obtain ⟨hdu, hdn⟩ := matches_iff.mp hdm
          apply hnotin
          rw [List.mem_map]
          exact ⟨d, hd, by rw [hdu, hdn, hcu, hcn]⟩
        rw [hnil]
        simp
      · rw [if_neg hc]
        exact ih hk'

theorem storeWf_create {st : AttrStore} {u : Nat} {n : String}
    (hwf : storeWf st) (hflt : st.rows.filter (matchesKwargs u (some n)) = []) :
    storeWf ⟨st.rows ++ [⟨st.nextId, u, n⟩], st.nextId + 1⟩ := by
  obtain ⟨hid, hkey, hbound⟩ := hwf
  refine ⟨?_, ?_, ?_⟩
  · rw [List.map_append, List.nodup_append]
    refine ⟨hid, List.nodup_singleton _, ?_⟩
    intro x hx hy
    simp only [List.map_cons, List.map_nil, List.mem_singleton] at hy
    subst hy
    obtain ⟨b, hb, hbid⟩ := List.mem_map.mp hx
    have := hbound b hb
    omega
  · rw [List.map_append, List.nodup_append]
    refine ⟨hkey, List.nodup_singleton _, ?_⟩
    intro x hx hy
    simp only [List.map_cons, List.map_nil, List.mem_singleton] at hy
    subst hy
    obtain ⟨b, hb, hbkey⟩ := List.mem_map.mp hx
    obtain ⟨hbu, hbn⟩ := Prod.mk.injEq .. ▸ hbkey
    exact List.filter_eq_nil_iff.mp hflt b hb (matches_iff.mpr ⟨hbu, hbn⟩)
  · intro a ha
    rcases List.mem_append.mp ha with h1 | h1
    · exact Nat.lt_succ_of_lt (hbound a h1)
    · rw [List.mem_singleton] at h1
      subst h1
      exact Nat.lt_succ_self _

theorem assocHasName_create {st : AttrStore} {assoc : List Nat} {u : Nat}
    {n : String} (hwf : storeWf st) (hva : assocValid st assoc) (v : Nat)
    (m : String) :
    assocHasName ⟨st.rows ++ [⟨st.nextId, u, n⟩], st.nextId + 1⟩
        (m2mAdd assoc st.nextId) v m ↔
      assocHasName st assoc v m ∨ (v = u ∧ m = n) := by
  constructor
  · rintro ⟨b, hb, hbid, hbu, hbn⟩
    rcases List.mem_append.mp hb with hbr | hbnew
    · rcases mem_m2mAdd_iff.mp hbid with hin | heq
      · exact Or.inl ⟨b, hbr, hin, hbu, hbn⟩
      · exfalso
        have := hwf.2.2 b hbr
        omega
    · rw [List.mem_singleton] at hbnew
      subst hbnew
      exact Or.inr ⟨hbu.symm, hbn.symm⟩
  · rintro (⟨b, hb, hbid, hbu, hbn⟩ | ⟨rfl, rfl⟩)
    · exact ⟨b, List.mem_append_left _ hb, mem_m2mAdd_of_mem hbid, hbu, hbn⟩
    · exact ⟨⟨st.nextId, v, m⟩, List.mem_append_right _ (List.mem_singleton_self _),
        mem_m2mAdd_self, rfl, rfl⟩

theorem assocHasName_found {st : AttrStore} {assoc : List Nat} {a : Attr}
    {u : Nat} {n : String} (hwf : storeWf st) (ha : a ∈ st.rows)
    (hau : a.user = u) (han : a.name = n) (v : Nat) (m : String) :
    assocHasName st (m2mAdd assoc a.id) v m ↔
      assocHasName st assoc v m ∨ (v = u ∧ m = n) := by
  constructor
  · rintro ⟨b, hb, hbid, hbu, hbn⟩
    rcases mem_m2mAdd_iff.mp hbid with hin | heq
    · exact Or.inl ⟨b, hb, hin, hbu, hbn⟩
    · have hba : b = a := List.inj_on_of_nodup_map hwf.1 hb ha heq
      subst hba
      exact Or.inr ⟨hbu.symm.trans hau, hbn.symm.trans han⟩
  · rintro (⟨b, hb, hbid, hbu, hbn⟩ | ⟨rfl, rfl⟩)
    · exact ⟨b, hb, mem_m2mAdd_of_mem hbid, hbu, hbn⟩
    · exact ⟨a, ha, mem_m2mAdd_self, hau, han⟩

/-- Characterization of tag reconciliation on a well-formed store: it
succeeds, preserves well-formedness, and the resulting associated
`(owner, name)` set is the initial one united with the names of the valid
dict entries of the submitted list — independently of their order. -/
theorem getOrCreateTags_spec (u : Nat) (L : List Entry) :
    ∀ (st : AttrStore) (assoc : List Nat), storeWf st → assocValid st assoc →
      ∃ st' assoc', getOrCreateTags u L st assoc = .ok (st', assoc') ∧
        storeWf st' ∧ assocValid st' assoc' ∧
        ∀ v m, assocHasName st' assoc' v m ↔
          (assocHasName st assoc v m ∨ (v = u ∧ Entry.dict (some m) ∈ L)) := by
  induction L with
  | nil =>
      intro st assoc hwf hva
      exact ⟨st, assoc, rfl, hwf, hva, by simp⟩
  | cons e rest ih =>
      intro st assoc hwf hva
      cases e with
      | nonDict =>
          obtain ⟨st', assoc', hrun, hwf', hva', hiff⟩ := ih st assoc hwf hva
          refine ⟨st', assoc', hrun, hwf', hva', fun v m => ?_⟩
          rw [hiff v m]
          simp [List.mem_cons]
      | dict m? =>
          cases m? with
          | none =>
              obtain ⟨st', assoc', hrun, hwf', hva', hiff⟩ := ih st assoc hwf hva
              refine ⟨st', assoc', hrun, hwf', hva', fun v m => ?_⟩
              rw [hiff v m]
              simp [List.mem_cons]
          | some n =>
              have hlen := filter_key_len_le hwf.2.1 u n
              cases hflt : st.rows.filter (matchesKwargs u (some n)) with
              | nil =>
                  have hgc : getOrCreate st u (some n) =
                      .ok (⟨st.nextId, u, n⟩,
                        ⟨st.rows ++ [⟨st.nextId, u, n⟩], st.nextId + 1⟩) := by
                    unfold getOrCreate
                    rw [hflt]
                    rfl
                  have hwf1 := storeWf_create hwf hflt
                  have hva1 : assocValid
                      ⟨st.rows ++ [⟨st.nextId, u, n⟩], st.nextId + 1⟩
                      (m2mAdd assoc st.nextId) := by
                    intro i hi
                    rcases mem_m2mAdd_iff.mp hi with h1 | h1
                    · exact Nat.lt_succ_of_lt (hva i h1)
                    · subst h1
                      exact Nat.lt_succ_self _
                  obtain ⟨st', assoc', hrun, hwf', hva', hiff⟩ := ih _ _ hwf1 hva1
                  refine ⟨st', assoc', ?_, hwf', hva', fun v m => ?_⟩
                  · simp only [getOrCreateTags]
                    rw [hgc]
                    dsimp only
                    exact hrun
                  · rw [hiff v m, assocHasName_create hwf hva v m]
                    simp only [List.mem_cons, Entry.dict.injEq, Option.some.injEq]
                    tauto
              | cons a t =>
                  cases t with
                  | nil =>
                      have hgc : getOrCreate st u (some n) = .ok (a, st) := by
                        unfold getOrCreate
                        rw [hflt]
                      have hamem : a ∈ st.rows := by
                        have : a ∈ st.rows.filter (matchesKwargs u (some n)) := by
                          rw [hflt]
                          exact List.mem_singleton_self a
                        exact (List.mem_filter.mp this).1
                      have hmatch : matchesKwargs u (some n) a = true := by
                        have : a ∈ st.rows.filter (matchesKwargs u (some n)) := by
                          rw [hflt]
                          exact List.mem_singleton_self a
                        exact (List.mem_filter.mp this).2
                      obtain ⟨hau, han⟩ := matches_iff.mp hmatch
                      have hva1 : assocValid st (m2mAdd assoc a.id) := by
                        intro i hi
                        rcases mem_m2mAdd_iff.mp hi with h1 | h1
                        · exact hva i h1
                        · subst h1
                          exact hwf.2.2 a hamem
                      obtain ⟨st', assoc', hrun, hwf', hva', hiff⟩ :=
                        ih st (m2mAdd assoc a.id) hwf hva1
                      refine ⟨st', assoc', ?_, hwf', hva', fun v m => ?_⟩
                      · simp only [getOrCreateTags]
                        rw [hgc]
                        dsimp only
                        exact hrun
                      · rw [hiff v m, assocHasName_found hwf hamem hau han v m]
                        simp only [List.mem_cons, Entry.dict.injEq, Option.some.injEq]
                        tauto
                  | cons b t2 =>
                      exfalso
                      rw [hflt] at hlen
                      simp at hlen

/-- On a list of valid `{name}` specs the ingredient reconciliation is
the same computation as the tag one (the shape guard never fires). -/
theorem getOrCreateIngredients_eq_tags {u : Nat} :
    ∀ {L : List Entry}, (∀ e ∈ L, ∃ n, e = Entry.dict (some n)) →
      ∀ (st : AttrStore) (assoc : List Nat),
        getOrCreateIngredients u L st assoc = getOrCreateTags u L st assoc := by
  intro L
  induction L with
  | nil =>
      intro _ st assoc
      rfl
  | cons e rest ih =>
      intro hv st assoc
      obtain ⟨n, rfl⟩ := hv e (List.mem_cons_self e rest)
      simp only [getOrCreateIngredients, getOrCreateTags]
      cases hgc : getOrCreate st u (some n) with
      | error e0 => rfl
      | ok p =>
          obtain ⟨b, st1⟩ := p
          dsimp only
          exact ih (fun e he => hv e (List.mem_cons_of_mem _ he)) st1 _

/-! ## Concrete fixtures used by closed statements -/

/-- A recipe of user 7 associated with tag 1 and ingredient 1. -/
def rA : Recipe := ⟨1, 7, "Curry", 10, 5, "", "", [1], [1]⟩

/-- A recipe of user 8 with no associations. -/
def rB : Recipe := ⟨2, 8, "Soup", 4, 3, "", "", [], []⟩

/-- A store with one tag and one ingredient of user 7, and the two
recipes above. -/
def dbA : Db := ⟨⟨[⟨1, 7, "Indian"⟩], 2⟩, ⟨[⟨1, 7, "Salt"⟩], 2⟩, [rA, rB], 3⟩

/-! ## Claim theorems -/

/-- C9: during tag reconciliation, an entry that is not a dict with a
`name` key is silently skipped (no creation, no association, no error),
while ingredient reconciliation has no shape check: every dict entry is
fed to `get_or_create` whether or not it has a `name` key, and a non-dict
entry is not skipped but raises `TypeError`. -/
theorem C9_tag_entries_skipped_ingredients_not :
    ∀ (u : Nat) (rest : List Entry) (st : AttrStore) (assoc : List Nat),
      (getOrCreateTags u (.dict none :: rest) st assoc =
        getOrCreateTags u rest st assoc) ∧
      (getOrCreateTags u (.nonDict :: rest) st assoc =
        getOrCreateTags u rest st assoc) ∧
      (∀ name?, getOrCreateIngredients u (.dict name? :: rest) st assoc =
        match getOrCreate st u name? with
        | .error e => .error e
        | .ok (a, st') => getOrCreateIngredients u rest st' (m2mAdd assoc a.id)) ∧
      (getOrCreateIngredients u (.nonDict :: rest) st assoc = .error .typeError) :=
  fun _ _ _ _ => ⟨rfl, rfl, fun _ => rfl, rfl⟩

/-- C10: a `tags` (resp. `ingredients`) query parameter that is present
but equal to the empty string is falsy, so no id filter is applied: the
listing equals the one with the parameter absent, and the empty string is
never parsed or rejected — with both parameters empty the request
succeeds. -/
theorem C10_empty_filter_param_is_no_filter :
    ∀ (db : Db) (u : Nat) (p : Option String),
      (recipeGetQueryset db u (some "") p = recipeGetQueryset db u none p) ∧
      (recipeGetQueryset db u p (some "") = recipeGetQueryset db u p none) ∧
      ∃ l, recipeGetQueryset db u (some "") (some "") = .ok l :=
  fun db u _ =>
    ⟨rfl, rfl, (orderByIdDesc (db.recipes.filter (fun r => r.user == u))).dedup, rfl⟩

/-- C6 fails as stated: a non-integer filter token does not produce a DRF
`ValidationError` (HTTP 400); at this concrete input the listing raises
an uncaught `ValueError`, which the framework's default handling surfaces
as a 500 server error. -/
theorem C6_counterexample_nonint_token_is_valueerror :
    recipeGetQueryset dbA 7 (some "1,abc") none = .error .valueError ∧
    PyError.valueError ≠ PyError.validationError ∧
    statusOf .valueError = 500 ∧ statusOf .validationError = 400 := by
  refine ⟨by decide, by decide, rfl, rfl⟩

/-- C6 amended: a recipe listing whose `tags` (or, with no tags filter
applied or a parseable one, `ingredients`) query string contains a token
that `int()` rejects fails with an uncaught `ValueError` — a 500 server
error under the framework's default exception handling — and not with
`ValidationFailed`/400. -/
theorem C6_amended_nonint_filter_token_raises_valueerror :
    (∀ (db : Db) (u : Nat) (s : String) (ip : Option String), s ≠ "" →
      (∃ t ∈ splitOnComma s.toList, ∃ e, pyInt (String.mk t) = .error e) →
      recipeGetQueryset db u (some s) ip = .error .valueError) ∧
    (∀ (db : Db) (u : Nat) (tp : Option String) (s : String), s ≠ "" →
      truthy tp = false →
      (∃ t ∈ splitOnComma s.toList, ∃ e, pyInt (String.mk t) = .error e) →
      recipeGetQueryset db u tp (some s) = .error .valueError) ∧
    (∀ (db : Db) (u : Nat) (ts s : String) (T : List Int), s ≠ "" →
      ts ≠ "" → paramsToInts ts = .ok T →
      (∃ t ∈ splitOnComma s.toList, ∃ e, pyInt (String.mk t) = .error e) →
      recipeGetQueryset db u (some ts) (some s) = .error .valueError) ∧
    statusOf .valueError = 500 ∧ PyError.valueError ≠ PyError.validationError := by
  refine ⟨?_, ?_, ?_, rfl, by decide⟩
  · rintro db u s ip hs ⟨t, htmem, e, he⟩
    have hp : paramsToInts s = .error .valueError :=
      mapPyInt_error_of_mem htmem he
    unfold recipeGetQueryset
    simp [tagFilterStep, ingFilterStep, finishRecipeQs, filterByIds, truthy, hs, hp]
  · rintro db u tp s hs htp ⟨t, htmem, e, he⟩
    have hp : paramsToInts s = .error .valueError :=
      mapPyInt_error_of_mem htmem he
    unfold recipeGetQueryset
    simp only [tagFilterStep, htp, Bool.false_eq_true, if_false]
    simp [ingFilterStep, finishRecipeQs, filterByIds, truthy, hs, hp]
  · rintro db u ts s T hs hts hT ⟨t, htmem, e, he⟩
    have hp : paramsToInts s = .error .valueError :=
      mapPyInt_error_of_mem htmem he
    unfold recipeGetQueryset
    simp [tagFilterStep, ingFilterStep, finishRecipeQs, filterByIds, truthy, hs, hts, hp, hT]

/-- Witness for the amended C6 at a concrete input: the parseable-tags /
bad-ingredients case yields the uncaught `ValueError`. -/
theorem C6_amended_witness :
    recipeGetQueryset dbA 7 (some "1") (some "2,x") = .error .valueError :=
  (C6_amended_nonint_filter_token_raises_valueerror.2.2.1 dbA 7 "1" "2,x" [1]
    (by decide) (by decide) (by decide)
    ⟨['x'], by decide, .valueError, by decide⟩)

/-- C1: on a successful update, an omitted `tags` (resp. `ingredients`)
field leaves the recipe's tag (resp. ingredient) associations and the
attribute table untouched, while a submitted one — empty included — makes
the final association list exactly the result of reconciling the
submitted specs against a cleared association; each field acts
independently of the other. -/
theorem C1_update_clear_repopulate_or_untouched :
    ∀ (u : Nat) (db : Db) (i : Recipe) (vd : ValidatedData) (db' : Db) (r' : Recipe),
      serializerUpdate u db i vd = .ok (db', r') →
      (vd.tags? = none → r'.tagIds = i.tagIds ∧ db'.tags = db.tags) ∧
      (vd.ingredients? = none →
        r'.ingredientIds = i.ingredientIds ∧ db'.ingredients = db.ingredients) ∧
      (∀ l, vd.tags? = some l →
        getOrCreateTags u l db.tags [] = .ok (db'.tags, r'.tagIds)) ∧
      (∀ l, vd.ingredients? = some l →
        getOrCreateIngredients u l db.ingredients [] =
          .ok (db'.ingredients, r'.ingredientIds)) := by
  intro u db i vd db' r' h
  unfold serializerUpdate at h
  cases hii : vd.ingredients? with
  | some il =>
      rw [hii] at h
      cases hti : vd.tags? with
      | some tl =>
          rw [hti] at h
          simp only [serializerUpdateCore] at h
          cases hgi : getOrCreateIngredients u il db.ingredients [] with
          | error e => rw [hgi] at h; simp at h
          | ok p =>
              obtain ⟨ist, iassoc⟩ := p
              rw [hgi] at h
              cases hgt : getOrCreateTags u tl db.tags [] with
              | error e => rw [hgt] at h; simp at h
              | ok q =>
                  obtain ⟨tst, tassoc⟩ := q
                  rw [hgt] at h
                  simp at h
                  obtain ⟨hdb, hr⟩ := h
                  subst hdb; subst hr
                  refine ⟨by simp [hti], by simp [hii], ?_, ?_⟩
                  · intro l hl
                    injection hl with hl
                    subst hl
                    exact hgt
                  · intro l hl
                    injection hl with hl
                    subst hl
                    exact hgi
      | none =>
          rw [hti] at h
          simp only [serializerUpdateCore] at h
          cases hgi : getOrCreateIngredients u il db.ingredients [] with
          | error e => rw [hgi] at h; simp at h
          | ok p =>
              obtain ⟨ist, iassoc⟩ := p
              rw [hgi] at h
              simp at h
              obtain ⟨hdb, hr⟩ := h
              subst hdb; subst hr
              refine ⟨fun _ => ⟨rfl, rfl⟩, by simp [hii], by simp [hti], ?_⟩
              intro l hl
              injection hl with hl
              subst hl
              exact hgi
  | none =>
      rw [hii] at h
      cases hti : vd.tags? with
      | some tl =>
          rw [hti] at h
          simp only [serializerUpdateCore] at h
          cases hgt : getOrCreateTags u tl db.tags [] with
          | error e => rw [hgt] at h; simp at h
          | ok q =>
              obtain ⟨tst, tassoc⟩ := q
              rw [hgt] at h
              simp at h
              obtain ⟨hdb, hr⟩ := h
              subst hdb; subst hr
              refine ⟨by simp [hti], fun _ => ⟨rfl, rfl⟩, ?_, by simp [hii]⟩
              intro l hl
              injection hl with hl
              subst hl
              exact hgt
      | none =>
          rw [hti] at h
          simp only [serializerUpdateCore] at h
          simp at h
          obtain ⟨hdb, hr⟩ := h
          subst hdb; subst hr
          exact ⟨fun _ => ⟨rfl, rfl⟩, fun _ => ⟨rfl, rfl⟩, by simp [hti], by simp [hii]⟩

/-- Witness for C1: a concrete successful update submitting `tags := []`
and omitting `ingredients` — the tag association is the reconciliation of
the empty list from a cleared state, the ingredient association is
untouched. -/
theorem C1_witness :
    getOrCreateTags 7 [] dbA.tags [] = .ok (dbA.tags, []) ∧
    ((applyScalars { tags? := some [] } { rA with tagIds := [] }).ingredientIds
        = rA.ingredientIds) := by
  have h := C1_update_clear_repopulate_or_untouched 7 dbA rA { tags? := some [] }
    (saveRecipe dbA (applyScalars { tags? := some [] } { rA with tagIds := [] }))
    (applyScalars { tags? := some [] } { rA with tagIds := [] }) (by decide)
  exact ⟨h.2.2.1 [] rfl, (h.2.1 rfl).1⟩

/-- C3: the owning `user` field of a recipe survives any successful
update unchanged, and a submitted `user` value is dropped by serializer
validation (it is not a declared field), so it is silently ignored rather
than raising an error. -/
theorem C3_owner_immutable_under_update :
    (∀ (u : Nat) (db : Db) (i : Recipe) (raw : RawInput) (db' : Db) (r' : Recipe),
      serializerUpdate u db i (toValidated raw) = .ok (db', r') →
      r'.user = i.user) ∧
    (∀ (raw : RawInput) (v : Option Nat),
      toValidated { raw with user? := v } = toValidated raw) := by
  refine ⟨?_, fun _ _ => rfl⟩
  intro u db i raw db' r' h
  unfold serializerUpdate at h
  cases hii : (toValidated raw).ingredients? with
  | some il =>
      rw [hii] at h
      cases hti : (toValidated raw).tags? with
      | some tl =>
          rw [hti] at h
          simp only [serializerUpdateCore] at h
          cases hgi : getOrCreateIngredients u il db.ingredients [] with
          | error e => rw [hgi] at h; simp at h
          | ok p =>
              obtain ⟨ist, iassoc⟩ := p
              rw [hgi] at h
              cases hgt : getOrCreateTags u tl db.tags [] with
              | error e => rw [hgt] at h; simp at h
              | ok q =>
                  obtain ⟨tst, tassoc⟩ := q
                  rw [hgt] at h
                  simp at h
                  rw [← h.2]
                  rfl
      | none =>
          rw [hti] at h
          simp only [serializerUpdateCore] at h
          cases hgi : getOrCreateIngredients u il db.ingredients [] with
          | error e => rw [hgi] at h; simp at h
          | ok p =>
              obtain ⟨ist, iassoc⟩ := p
              rw [hgi] at h
              simp at h
              rw [← h.2]
              rfl
  | none =>
      rw [hii] at h
      cases hti : (toValidated raw).tags? with
      | some tl =>
          rw [hti] at h
          simp only [serializerUpdateCore] at h
          cases hgt : getOrCreateTags u tl db.tags [] with
          | error e => rw [hgt] at h; simp at h
          | ok q =>
              obtain ⟨tst, tassoc⟩ := q
              rw [hgt] at h
              simp at h
              rw [← h.2]
              rfl
      | none =>
          rw [hti] at h
          simp only [serializerUpdateCore] at h
          simp at h
          rw [← h.2]
          rfl

/-- Witness for C3: a concrete update that submits a different `user`
value succeeds and leaves the owner unchanged. -/
theorem C3_witness :
    (applyScalars (toValidated { title? := some "New", user? := some 99 }) rA).user
      = rA.user :=
  C3_owner_immutable_under_update.1 7 dbA rA { title? := some "New", user? := some 99 }
    (saveRecipe dbA (applyScalars (toValidated { title? := some "New", user? := some 99 }) rA))
    (applyScalars (toValidated { title? := some "New", user? := some 99 }) rA)
    (by decide)

theorem listing_props (l0 : List Recipe) (u : Nat) :
    (∀ r, r ∈ (orderByIdDesc (l0.filter (fun x => x.user == u))).dedup ↔
      r ∈ l0 ∧ r.user = u) ∧
    List.Sorted (fun a b => b.id ≤ a.id)
      ((orderByIdDesc (l0.filter (fun x => x.user == u))).dedup) ∧
    ((orderByIdDesc (l0.filter (fun x => x.user == u))).dedup).Nodup := by
  refine ⟨fun r => ?_, sorted_recipeListing _, List.nodup_dedup _⟩
  rw [mem_recipeListing, List.mem_filter]
  simp

/-- C4: a recipe listing returns exactly the requesting owner's recipes,
sorted descending by id and without duplicates; a given `tags` id set
keeps exactly the recipes having at least one tag id in the set (OR
semantics), likewise for `ingredients`, and both filters combine by
logical AND. -/
theorem C4_listing_owner_scope_and_id_filters :
    (∀ (db : Db) (u : Nat) (l : List Recipe),
      recipeGetQueryset db u none none = .ok l →
      (∀ r, r ∈ l ↔ r ∈ db.recipes ∧ r.user = u) ∧
      List.Sorted (fun a b => b.id ≤ a.id) l ∧ l.Nodup) ∧
    (∀ (db : Db) (u : Nat) (ts : String) (T : List Int) (l : List Recipe),
      ts ≠ "" → paramsToInts ts = .ok T →
      recipeGetQueryset db u (some ts) none = .ok l →
      (∀ r, r ∈ l ↔ r ∈ db.recipes ∧ r.user = u ∧ ∃ t ∈ r.tagIds, (t : Int) ∈ T) ∧
      List.Sorted (fun a b => b.id ≤ a.id) l ∧ l.Nodup) ∧
    (∀ (db : Db) (u : Nat) (s : String) (I : List Int) (l : List Recipe),
      s ≠ "" → paramsToInts s = .ok I →
      recipeGetQueryset db u none (some s) = .ok l →
      (∀ r, r ∈ l ↔ r ∈ db.recipes ∧ r.user = u ∧
        ∃ i ∈ r.ingredientIds, (i : Int) ∈ I) ∧
      List.Sorted (fun a b => b.id ≤ a.id) l ∧ l.Nodup) ∧
    (∀ (db : Db) (u : Nat) (ts s : String) (T I : List Int) (l : List Recipe),
      ts ≠ "" → s ≠ "" → paramsToInts ts = .ok T → paramsToInts s = .ok I →
      recipeGetQueryset db u (some ts) (some s) = .ok l →
      (∀ r, r ∈ l ↔ r ∈ db.recipes ∧ r.user = u ∧
        (∃ t ∈ r.tagIds, (t : Int) ∈ T) ∧ ∃ i ∈ r.ingredientIds, (i : Int) ∈ I) ∧
      List.Sorted (fun a b => b.id ≤ a.id) l ∧ l.Nodup) := by
  refine ⟨?_, ?_, ?_, ?_⟩
  · intro db u l h
    have hq : recipeGetQueryset db u none none =
        .ok ((orderByIdDesc (db.recipes.filter (fun x => x.user == u))).dedup) := rfl
    rw [hq] at h
    injection h with h
    subst h
    obtain ⟨hm, hsort, hnd⟩ := listing_props db.recipes u
    exact ⟨hm, hsort, hnd⟩
  · intro db u ts T l hts hT h
    have hq : recipeGetQueryset db u (some ts) none =
        .ok ((orderByIdDesc
          (((db.recipes.filter
              (fun r => r.tagIds.any (fun t => T.contains (t : Int)))).filter
            (fun x => x.user == u)))).dedup) := by
      unfold recipeGetQueryset
      simp [tagFilterStep, ingFilterStep, finishRecipeQs, filterByIds, truthy, hts, hT]
    rw [hq] at h
    injection h with h
    subst h
    obtain ⟨hm, hsort, hnd⟩ :=
      listing_props (db.recipes.filter
        (fun r => r.tagIds.any (fun t => T.contains (t : Int)))) u
    refine ⟨fun r => ?_, hsort, hnd⟩
    rw [hm r, List.mem_filter]
    simp [List.any_eq_true, List.contains, List.elem_iff]
    tauto
  · intro db u s I l hs hI h
    have hq : recipeGetQueryset db u none (some s) =
        .ok ((orderByIdDesc
          (((db.recipes.filter
              (fun r => r.ingredientIds.any (fun i => I.contains (i : Int)))).filter
            (fun x => x.user == u)))).dedup) := by
      unfold recipeGetQueryset
      simp [tagFilterStep, ingFilterStep, finishRecipeQs, filterByIds, truthy, hs, hI]
    rw [hq] at h
    injection h with h
    subst h
    obtain ⟨hm, hsort, hnd⟩ :=
      listing_props (db.recipes.filter
        (fun r => r.ingredientIds.any (fun i => I.contains (i : Int)))) u
    refine ⟨fun r => ?_, hsort, hnd⟩
    rw [hm r, List.mem_filter]
    simp [List.any_eq_true, List.contains, List.elem_iff]
    tauto
  · intro db u ts s T I l hts hs hT hI h
    have hq : recipeGetQueryset db u (some ts) (some s) =
        .ok ((orderByIdDesc
          ((((db.recipes.filter
                (fun r => r.tagIds.any (fun t => T.contains (t : Int)))).filter
              (fun r => r.ingredientIds.any (fun i => I.contains (i : Int)))).filter
            (fun x => x.user == u)))).dedup) := by
      unfold recipeGetQueryset
      simp [tagFilterStep, ingFilterStep, finishRecipeQs, filterByIds, truthy,
        hts, hs, hT, hI]
    rw [hq] at h
    injection h with h
    subst h
    obtain ⟨hm, hsort, hnd⟩ :=
      listing_props ((db.recipes.filter
        (fun r => r.tagIds.any (fun t => T.contains (t : Int)))).filter
          (fun r => r.ingredientIds.any (fun i => I.contains (i : Int)))) u
    refine ⟨fun r => ?_, hsort, hnd⟩
    rw [hm r, List.mem_filter, List.mem_filter]
    simp [List.any_eq_true, List.contains, List.elem_iff]
    tauto

/-- Witness for C4 at a concrete store: filtering by tag id 1 and
ingredient id 1 yields exactly the owner's matching recipe. -/
theorem C4_witness :
    rA ∈ [rA] ↔ rA ∈ dbA.recipes ∧ rA.user = 7 ∧
      (∃ t ∈ rA.tagIds, (t : Int) ∈ [(1 : Int)]) ∧
      ∃ i ∈ rA.ingredientIds, (i : Int) ∈ [(1 : Int)] :=
  (C4_listing_owner_scope_and_id_filters.2.2.2 dbA 7 "1" "1" [1] [1] [rA]
    (by decide) (by decide) (by decide) (by decide) (by decide)).1 rA

/-- A second fixture: one tag of user 7 referenced by two recipes of
user 7. -/
def tagB : Attr := ⟨1, 7, "Veg"⟩

/-- Store for the shared-tag scenario. -/
def dbB : Db :=
  ⟨⟨[tagB], 2⟩, ⟨[], 1⟩,
    [⟨1, 7, "A", 1, 0, "", "", [1], []⟩, ⟨2, 7, "B", 1, 0, "", "", [1], []⟩], 3⟩

/-- C5: listing tags or ingredients returns the owner's attributes,
sorted descending by name and distinct; with a non-zero `assigned_only`
the result keeps exactly the attributes referenced by at least one recipe
of that owner (given the API invariant that associations link same-owner
rows), and every returned attribute appears exactly once. -/
theorem C5_attr_listing_assigned_only :
    ∀ (db : Db) (k : AttrKind) (u : Nat) (p : Option String) (v : Int)
      (l : List Attr),
      assignedFlag p = .ok v →
      assocOwnerConsistent db k →
      attrGetQueryset db k u p = .ok l →
      (∀ a, a ∈ l ↔ a ∈ attrRows db k ∧ a.user = u ∧
        (v ≠ 0 → ∃ r ∈ db.recipes, r.user = u ∧ a.id ∈ recipeRefs r k)) ∧
      List.Sorted (fun a b => b.name ≤ a.name) l ∧ l.Nodup ∧
      ∀ a ∈ l, l.count a = 1 := by
  intro db k u p v l hv hoc h
  unfold attrGetQueryset at h
  rw [hv] at h
  by_cases h0 : v = 0
  · subst h0
    have hq : attrQsCore db k u (.ok 0) =
        .ok ((orderByNameDesc ((attrRows db k).filter (fun a => a.user == u))).dedup) :=
      rfl
    rw [hq] at h
    injection h with h
    subst h
    refine ⟨fun a => ?_, sorted_attrListing _, List.nodup_dedup _,
      fun a ha => List.count_eq_one_of_mem (List.nodup_dedup _) ha⟩
    rw [mem_attrListing, List.mem_filter]
    simp
  · have hq : attrQsCore db k u (.ok v) =
        .ok ((orderByNameDesc (((attrRows db k).filter (fun a => a.user == u)).filter
          (fun a => db.recipes.any (fun r => (recipeRefs r k).contains a.id)))).dedup) := by
      simp [attrQsCore, h0]
    rw [hq] at h
    injection h with h
    subst h
    refine ⟨fun a => ?_, sorted_attrListing _, List.nodup_dedup _,
      fun a ha => List.count_eq_one_of_mem (List.nodup_dedup _) ha⟩
    rw [mem_attrListing, List.mem_filter, List.mem_filter]
    simp only [List.any_eq_true, List.contains, List.elem_iff, beq_iff_eq,
      decide_eq_true_eq, ne_eq, h0, not_false_iff, true_implies]
    constructor
    · rintro ⟨⟨hmem, huser⟩, r, hr, href⟩
      refine ⟨hmem, huser, r, hr, ?_, href⟩
      rw [← hoc r hr a hmem href, huser]
    · rintro ⟨hmem, huser, r, hr, hru, href⟩
      exact ⟨⟨hmem, huser⟩, r, hr, href⟩

/-- Witness for C5: the shared tag of the two recipes of user 7 is listed
exactly once under `assigned_only=1`. -/
theorem C5_witness : List.count tagB [tagB] = 1 :=
  (C5_attr_listing_assigned_only dbB .tag 7 (some "1") 1 [tagB]
    (by decide) (by unfold assocOwnerConsistent; decide) (by decide)).2.2.2 tagB
    (by decide)

theorem recipeGetObject_cross_owner {db : Db} {u pk : Nat} {r : Recipe}
    (hnd : (db.recipes.map Recipe.id).Nodup) (hr : r ∈ db.recipes)
    (hid : r.id = pk) (hu : r.user ≠ u) :
    recipeGetObject db u pk = .error .notFound := by
  unfold recipeGetObject
  have hq : recipeGetQueryset db u none none =
      .ok ((orderByIdDesc (db.recipes.filter (fun x => x.user == u))).dedup) := rfl
  rw [hq]
  simp only [pickRecipeByPk]
  have hnil : ((orderByIdDesc (db.recipes.filter (fun x => x.user == u))).dedup).filter
      (fun x => x.id == pk) = [] := by
    rw [List.filter_eq_nil_iff]
    intro x hx
    obtain ⟨hxmem, hxu⟩ := ((listing_props db.recipes u).1 x).mp hx
    simp only [beq_iff_eq]
    intro hxe
    have hxr : x = r :=
      List.inj_on_of_nodup_map hnd hxmem hr (by rw [hxe, hid])
    rw [hxr] at hxu
    exact hu hxu
  rw [hnil]

theorem attrGetObject_cross_owner {db : Db} {k : AttrKind} {u pk : Nat} {a : Attr}
    (hnd : ((attrRows db k).map Attr.id).Nodup) (ha : a ∈ attrRows db k)
    (hid : a.id = pk) (hu : a.user ≠ u) :
    attrGetObject db k u pk = .error .notFound := by
  unfold attrGetObject
  have hq : attrGetQueryset db k u none =
      .ok ((orderByNameDesc ((attrRows db k).filter (fun x => x.user == u))).dedup) := rfl
  rw [hq]
  simp only [pickAttrByPk]
  have hnil : ((orderByNameDesc ((attrRows db k).filter (fun x => x.user == u))).dedup).filter
      (fun x => x.id == pk) = [] := by
    rw [List.filter_eq_nil_iff]
    intro x hx
    rw [mem_attrListing, List.mem_filter] at hx
    obtain ⟨hxmem, hxu⟩ := hx
    simp only [beq_iff_eq] at hxu ⊢
    intro hxe
    have hxa : x = a :=
      List.inj_on_of_nodup_map hnd hxmem ha (by rw [hxe, hid])
    rw [hxa] at hxu
    exact hu hxu
  rw [hnil]

/-- C7 fails as stated: the claim covers cross-owner *detail* requests on
tags and ingredients too, but `BaseRecipeAttrViewSet` has no
`RetrieveModelMixin`, so a detail GET on another user's tag answers 405
Method Not Allowed — not the claimed `NotFound`/404 — here at the
concrete cross-owner input of user 8 reading user 7's tag 1. -/
theorem C7_counterexample_attr_detail_get_is_405 :
    retrieveAttrView dbA .tag 8 1 = (.error .methodNotAllowed, dbA) ∧
    (⟨1, 7, "Indian"⟩ : Attr) ∈ attrRows dbA .tag ∧ (7 : Nat) ≠ 8 ∧
    PyError.methodNotAllowed ≠ PyError.notFound ∧
    statusOf .methodNotAllowed = 405 :=
  ⟨rfl, by decide, by decide, by decide, rfl⟩

/-- C7 amended: a cross-owner detail read, update or delete on a recipe,
and a cross-owner update or delete on a tag or ingredient, fail with
`Http404` (status 404, not a 403 forbidden) because the owner-scoped
queryset hides the row, and the store — hence the targeted resource — is
untouched; a detail GET on a tag or ingredient, however, is 405 Method
Not Allowed for every user (the viewset binds no retrieve handler), with
the store likewise untouched. -/
theorem C7_amended_cross_owner_notfound_resource_intact :
    (∀ (db : Db) (u pk : Nat) (r : Recipe) (raw : RawInput),
      (db.recipes.map Recipe.id).Nodup → r ∈ db.recipes → r.id = pk →
      r.user ≠ u →
      retrieveRecipeView db u pk = (.error .notFound, db) ∧
      updateRecipeView db u pk raw = (.error .notFound, db) ∧
      destroyRecipeView db u pk = (.error .notFound, db) ∧
      r ∈ (destroyRecipeView db u pk).2.recipes) ∧
    (∀ (db : Db) (k : AttrKind) (u pk : Nat) (a : Attr) (nm : String),
      ((attrRows db k).map Attr.id).Nodup → a ∈ attrRows db k → a.id = pk →
      a.user ≠ u →
      updateAttrView db k u pk nm = (.error .notFound, db) ∧
      destroyAttrView db k u pk = (.error .notFound, db) ∧
      a ∈ attrRows (destroyAttrView db k u pk).2 k) ∧
    (∀ (db : Db) (k : AttrKind) (u pk : Nat),
      retrieveAttrView db k u pk = (.error .methodNotAllowed, db)) ∧
    statusOf .notFound = 404 ∧ statusOf .notFound ≠ 403 ∧
    statusOf .methodNotAllowed = 405 := by
  refine ⟨?_, ?_, fun _ _ _ _ => rfl, rfl, by decide, rfl⟩
  · intro db u pk r raw hnd hr hid hu
    have hobj := recipeGetObject_cross_owner hnd hr hid hu
    refine ⟨?_, ?_, ?_, ?_⟩
    · simp [retrieveRecipeView, hobj]
    · simp [updateRecipeView, hobj]
    · simp [destroyRecipeView, hobj]
    · simp [destroyRecipeView, hobj, hr]
  · intro db k u pk a nm hnd ha hid hu
    have hobj := attrGetObject_cross_owner hnd ha hid hu
    refine ⟨?_, ?_, ?_⟩
    · simp [updateAttrView, hobj]
    · simp [destroyAttrView, hobj]
    · simp [destroyAttrView, hobj, ha]

/-- Witness for the amended C7: user 7 cannot delete user 8's recipe nor
user 8 delete user 7's tag — both NotFound with the rows surviving. -/
theorem C7_witness :
    (destroyRecipeView dbA 7 2 = (.error .notFound, dbA) ∧
      rB ∈ (destroyRecipeView dbA 7 2).2.recipes) ∧
    (destroyAttrView dbA .tag 8 1 = (.error .notFound, dbA) ∧
      (⟨1, 7, "Indian"⟩ : Attr) ∈ attrRows (destroyAttrView dbA .tag 8 1).2 .tag) := by
  have h := (C7_amended_cross_owner_notfound_resource_intact.1 dbA 7 2 rB
    { title? := some "hack" } (by decide) (by decide) (by decide) (by decide))
  have h2 := (C7_amended_cross_owner_notfound_resource_intact.2.1 dbA .tag 8 1
    ⟨1, 7, "Indian"⟩ "hack" (by decide) (by decide) (by decide) (by decide))
  exact ⟨⟨h.2.2.1, h.2.2.2⟩, ⟨h2.2.1, h2.2.2⟩⟩

/-- The recipe row created by the C2 witness scenario. -/
def rC : Recipe := ⟨3, 7, "", 0, 0, "", "", [1], []⟩

/-- The store after the C2 witness scenario. -/
def dbC : Db := ⟨⟨[⟨1, 7, "Indian"⟩], 2⟩, ⟨[⟨1, 7, "Salt"⟩], 2⟩, [rA, rB, rC], 4⟩

/-- C2: when a create or update submits a tag (resp. ingredient) spec
whose name matches exactly one existing attribute row of the same owner,
no new row is created — after the write there is still exactly one row
with that `(owner, name)` key, the pre-existing row survives, and its id
is associated with the recipe. -/
theorem C2_get_or_create_reuses_existing_attribute :
    (∀ (u : Nat) (db : Db) (vd : ValidatedData) (db' : Db) (r' : Recipe)
       (n : String) (a : Attr),
      Entry.dict (some n) ∈ vd.tags?.getD [] →
      db.tags.rows.filter (matchesKwargs u (some n)) = [a] →
      serializerCreate u db vd = .ok (db', r') →
      countKey db'.tags u n = 1 ∧ a.id ∈ r'.tagIds ∧ a ∈ db'.tags.rows) ∧
    (∀ (u : Nat) (db : Db) (i : Recipe) (vd : ValidatedData) (db' : Db)
       (r' : Recipe) (l : List Entry) (n : String) (a : Attr),
      vd.tags? = some l → Entry.dict (some n) ∈ l →
      db.tags.rows.filter (matchesKwargs u (some n)) = [a] →
      serializerUpdate u db i vd = .ok (db', r') →
      countKey db'.tags u n = 1 ∧ a.id ∈ r'.tagIds ∧ a ∈ db'.tags.rows) ∧
    (∀ (u : Nat) (db : Db) (vd : ValidatedData) (db' : Db) (r' : Recipe)
       (n : String) (a : Attr),
      Entry.dict (some n) ∈ vd.ingredients?.getD [] →
      db.ingredients.rows.filter (matchesKwargs u (some n)) = [a] →
      serializerCreate u db vd = .ok (db', r') →
      countKey db'.ingredients u n = 1 ∧ a.id ∈ r'.ingredientIds ∧
        a ∈ db'.ingredients.rows) ∧
    (∀ (u : Nat) (db : Db) (i : Recipe) (vd : ValidatedData) (db' : Db)
       (r' : Recipe) (l : List Entry) (n : String) (a : Attr),
      vd.ingredients? = some l → Entry.dict (some n) ∈ l →
      db.ingredients.rows.filter (matchesKwargs u (some n)) = [a] →
      serializerUpdate u db i vd = .ok (db', r') →
      countKey db'.ingredients u n = 1 ∧ a.id ∈ r'.ingredientIds ∧
        a ∈ db'.ingredients.rows) := by
  have hmemrow : ∀ (rows : List Attr) (p : Attr → Bool) (a : Attr),
      rows.filter p = [a] → a ∈ rows := by
    intro rows p a hflt
    have : a ∈ rows.filter p := by
      rw [hflt]
      exact List.mem_singleton_self a
    exact (List.mem_filter.mp this).1
  refine ⟨?_, ?_, ?_, ?_⟩
  · intro u db vd db' r' n a hmem hflt hc
    obtain ⟨hgt, _⟩ := serializerCreate_ok_elim hc
    have hne : db.tags.rows.filter (matchesKwargs u (some n)) ≠ [] := by
      rw [hflt]
      simp
    refine ⟨?_, getOrCreateTags_assoc_of_unique hflt hmem hgt,
      getOrCreateTags_rows_mono hgt a (hmemrow _ _ _ hflt)⟩
    unfold countKey
    rw [getOrCreateTags_filter_key hgt u n hne, hflt]
    rfl
  · intro u db i vd db' r' l n a hl hmem hflt hc
    have hgt := serializerUpdate_some_tags hc hl
    have hne : db.tags.rows.filter (matchesKwargs u (some n)) ≠ [] := by
      rw [hflt]
      simp
    refine ⟨?_, getOrCreateTags_assoc_of_unique hflt hmem hgt,
      getOrCreateTags_rows_mono hgt a (hmemrow _ _ _ hflt)⟩
    unfold countKey
    rw [getOrCreateTags_filter_key hgt u n hne, hflt]
    rfl
  · intro u db vd db' r' n a hmem hflt hc
    obtain ⟨_, hgi⟩ := serializerCreate_ok_elim hc
    have hne : db.ingredients.rows.filter (matchesKwargs u (some n)) ≠ [] := by
      rw [hflt]
      simp
    refine ⟨?_, getOrCreateIngredients_assoc_of_unique hflt hmem hgi,
      getOrCreateIngredients_rows_mono hgi a (hmemrow _ _ _ hflt)⟩
    unfold countKey
    rw [getOrCreateIngredients_filter_key hgi u n hne, hflt]
    rfl
  · intro u db i vd db' r' l n a hl hmem hflt hc
    have hgi := serializerUpdate_some_ingredients hc hl
    have hne : db.ingredients.rows.filter (matchesKwargs u (some n)) ≠ [] := by
      rw [hflt]
      simp
    refine ⟨?_, getOrCreateIngredients_assoc_of_unique hflt hmem hgi,
      getOrCreateIngredients_rows_mono hgi a (hmemrow _ _ _ hflt)⟩
    unfold countKey
    rw [getOrCreateIngredients_filter_key hgi u n hne, hflt]
    rfl

/-- Witness for C2: creating a recipe with `tags: [{"name": "Indian"}]`
when user 7 already owns an "Indian" tag leaves exactly one "Indian" row
and associates its id. -/
theorem C2_witness :
    countKey dbC.tags 7 "Indian" = 1 ∧ (1 : Nat) ∈ rC.tagIds ∧
      (⟨1, 7, "Indian"⟩ : Attr) ∈ dbC.tags.rows :=
  C2_get_or_create_reuses_existing_attribute.1 7 dbA
    { tags? := some [.dict (some "Indian")] } dbC rC "Indian" ⟨1, 7, "Indian"⟩
    (by decide) (by decide) (by decide)

/-- C8: on a well-formed store, reconciliation of a submitted spec list
reaches the same associated `(owner, name)` set for any processing order
of the specs (for ingredients, on lists of valid `{name}` specs, where
the two reconcilers coincide); and a spec resolving to an attribute
already associated with the recipe is a complete no-op: store and
association are returned unchanged. -/
theorem C8_reconciliation_order_invariant_and_idempotent :
    (∀ (u : Nat) (L1 L2 : List Entry) (st : AttrStore) (assoc : List Nat),
      storeWf st → assocValid st assoc → L1.Perm L2 →
      ∃ st1 assoc1 st2 assoc2,
        getOrCreateTags u L1 st assoc = .ok (st1, assoc1) ∧
        getOrCreateTags u L2 st assoc = .ok (st2, assoc2) ∧
        ∀ v m, assocHasName st1 assoc1 v m ↔ assocHasName st2 assoc2 v m) ∧
    (∀ (u : Nat) (L1 L2 : List Entry) (st : AttrStore) (assoc : List Nat),
      (∀ e ∈ L1, ∃ n, e = Entry.dict (some n)) →
      storeWf st → assocValid st assoc → L1.Perm L2 →
      ∃ st1 assoc1 st2 assoc2,
        getOrCreateIngredients u L1 st assoc = .ok (st1, assoc1) ∧
        getOrCreateIngredients u L2 st assoc = .ok (st2, assoc2) ∧
        ∀ v m, assocHasName st1 assoc1 v m ↔ assocHasName st2 assoc2 v m) ∧
    (∀ (u : Nat) (n : String) (st : AttrStore) (assoc : List Nat) (a : Attr),
      st.rows.filter (matchesKwargs u (some n)) = [a] → a.id ∈ assoc →
      getOrCreateTags u [.dict (some n)] st assoc = .ok (st, assoc) ∧
      getOrCreateIngredients u [.dict (some n)] st assoc = .ok (st, assoc)) := by
  have main : ∀ (u : Nat) (L1 L2 : List Entry) (st : AttrStore) (assoc : List Nat),
      storeWf st → assocValid st assoc → L1.Perm L2 →
      ∃ st1 assoc1 st2 assoc2,
        getOrCreateTags u L1 st assoc = .ok (st1, assoc1) ∧
        getOrCreateTags u L2 st assoc = .ok (st2, assoc2) ∧
        ∀ v m, assocHasName st1 assoc1 v m ↔ assocHasName st2 assoc2 v m := by
    intro u L1 L2 st assoc hwf hva hperm
    obtain ⟨st1, assoc1, hrun1, _, _, hiff1⟩ := getOrCreateTags_spec u L1 st assoc hwf hva
    obtain ⟨st2, assoc2, hrun2, _, _, hiff2⟩ := getOrCreateTags_spec u L2 st assoc hwf hva
    refine ⟨st1, assoc1, st2, assoc2, hrun1, hrun2, fun v m => ?_⟩
    rw [hiff1 v m, hiff2 v m, hperm.mem_iff]
  refine ⟨main, ?_, ?_⟩
  · intro u L1 L2 st assoc hv hwf hva hperm
    have hv2 : ∀ e ∈ L2, ∃ n, e = Entry.dict (some n) :=
      fun e he => hv e (hperm.mem_iff.mpr he)
    obtain ⟨st1, assoc1, st2, assoc2, h1, h2, hiff⟩ :=
      main u L1 L2 st assoc hwf hva hperm
    exact ⟨st1, assoc1, st2, assoc2,
      (getOrCreateIngredients_eq_tags hv st assoc).trans h1,
      (getOrCreateIngredients_eq_tags hv2 st assoc).trans h2, hiff⟩
  · intro u n st assoc a hflt hmem
    have hgc : getOrCreate st u (some n) = .ok (a, st) := by
      unfold getOrCreate
      rw [hflt]
    have hm : m2mAdd assoc a.id = assoc := by
      unfold m2mAdd
      rw [if_pos hmem]
    constructor
    · simp only [getOrCreateTags]
      rw [hgc]
      dsimp only
      rw [hm]
    · simp only [getOrCreateIngredients]
      rw [hgc]
      dsimp only
      rw [hm]

/-- Witness for C8: two fresh specs processed in either order associate
the same `(owner, name)` set, and re-adding the already-associated
"Indian" spec leaves store and association untouched. -/
theorem C8_witness :
    (∃ st1 assoc1 st2 assoc2,
      getOrCreateTags 7 [Entry.dict (some "A"), Entry.dict (some "B")]
        ⟨[], 1⟩ [] = .ok (st1, assoc1) ∧
      getOrCreateTags 7 [Entry.dict (some "B"), Entry.dict (some "A")]
        ⟨[], 1⟩ [] = .ok (st2, assoc2) ∧
      ∀ v m, assocHasName st1 assoc1 v m ↔ assocHasName st2 assoc2 v m) ∧
    getOrCreateTags 7 [.dict (some "Indian")] dbA.tags [1] = .ok (dbA.tags, [1]) :=
  ⟨C8_reconciliation_order_invariant_and_idempotent.1 7
      [Entry.dict (some "A"), Entry.dict (some "B")]
      [Entry.dict (some "B"), Entry.dict (some "A")] ⟨[], 1⟩ []
      (by unfold storeWf; decide) (by unfold assocValid; decide)
      (List.Perm.swap (Entry.dict (some "B")) (Entry.dict (some "A")) []),
    (C8_reconciliation_order_invariant_and_idempotent.2.2 7 "Indian" dbA.tags [1]
      ⟨1, 7, "Indian"⟩ (by decide) (by decide)).1⟩

end RecipeApp
